import Mathlib

/-!
Verification development for the Jerry retrieval-and-caching engine.

The Python sources are shallowly embedded: Python floats are modelled as
rationals, Python lists as Lean lists, fallible code as Except, and the
external collaborators (embedding model, Chroma collection, SQLite store)
as explicit oracle parameters.  Each definition carries a pointer to the
source lines it embeds.
-/

namespace Jerry

/-- Python blank test: `not s.strip()` is true exactly when the string is
empty after stripping surrounding whitespace, that is, when every character
is whitespace. -/
def pyBlank (s : String) : Bool := s.data.all (fun c => c.isWhitespace)

/-! ### Data model (src/data/models.py, KnowledgeChunk) -/

/-- KnowledgeChunk (models.py 116-129).  Timestamps are carried as the strings
the vector store hands back; metadata is the leftover key/value map. -/
structure KnowledgeChunk where
  id : String
  document_id : String
  title : String
  content : String
  embedding : List ℚ
  metadata : List (String × String)
  created_at : String
  updated_at : String
  chunk_index : ℕ
  relevance_score : ℚ
  deriving DecidableEq, Repr

/-- KnowledgeChunk.__post_init__ (models.py 159-166) raises ValueError unless
document_id and content are non-empty (chunk_index is a ℕ here, so the
non-negativity check always passes). -/
def validChunkData (document_id content : String) : Bool :=
  document_id != "" && content != ""

/-! ### Vector store (src/rag/vector_store.py) -/

/-- One row of the Chroma query answer as consumed by search_similar:
id, metadata fields, document text and reported distance. -/
structure QueryRow where
  id : String
  document_id : String
  title : String
  content : String
  extra_metadata : List (String × String)
  created_at : String
  updated_at : String
  chunk_index : ℕ
  distance : ℚ
  deriving DecidableEq, Repr

/-- The KnowledgeChunk reconstructed from one query row
(vector_store.py 181-207): similarity is computed as 1.0 - distance with no
clamping, the embedding field is set to the query embedding (source comment:
"Not the actual embedding"), and relevance_score receives the similarity. -/
def rowToChunk (query_embedding : List ℚ) (row : QueryRow) : KnowledgeChunk :=
  { id := row.id
    document_id := row.document_id
    title := row.title
    content := row.content
    embedding := query_embedding
    metadata := row.extra_metadata
    created_at := row.created_at
    updated_at := row.updated_at
    chunk_index := row.chunk_index
    relevance_score := 1 - row.distance }

/-- The result-building loop of search_similar (vector_store.py 176-209).
Constructing a KnowledgeChunk with empty document_id or content raises
ValueError in __post_init__, which escapes the loop. -/
def buildResults (query_embedding : List ℚ) :
    List QueryRow → Except Unit (List (KnowledgeChunk × ℚ))
  | [] => Except.ok []
  | row :: rest =>
    if validChunkData row.document_id row.content then
      match buildResults query_embedding rest with
      | Except.error e => Except.error e
      | Except.ok ps => Except.ok ((rowToChunk query_embedding row, 1 - row.distance) :: ps)
    else Except.error ()

/-- ChromaVectorStore.search_similar (vector_store.py 148-216).  The Chroma
collection query is an oracle outcome; any exception from the query or from
chunk reconstruction is caught and turned into the empty list. -/
def search_similar (query_embedding : List ℚ)
    (queryOutcome : Except Unit (List QueryRow)) : List (KnowledgeChunk × ℚ) :=
  match queryOutcome with
  | Except.error _ => []
  | Except.ok rows =>
    match buildResults query_embedding rows with
    | Except.error _ => []
    | Except.ok ps => ps

/-- One row of a Chroma collection.get answer (no embedding, no distance). -/
structure GetRow where
  document_id : String
  title : String
  content : String
  extra_metadata : List (String × String)
  created_at : String
  updated_at : String
  chunk_index : ℕ
  deriving DecidableEq, Repr

/-- ChromaVectorStore.get_chunk (vector_store.py 218-261): a missing id or any
exception yields none; a found row is rebuilt with embedding := []
(source comment: "Embedding not returned by get()") and the default
relevance_score 0.0. -/
def get_chunk (chunk_id : String)
    (getOutcome : Except Unit (Option GetRow)) : Option KnowledgeChunk :=
  match getOutcome with
  | Except.error _ => none
  | Except.ok none => none
  | Except.ok (some row) =>
    if validChunkData row.document_id row.content then
      some { id := chunk_id
             document_id := row.document_id
             title := row.title
             content := row.content
             embedding := []
             metadata := row.extra_metadata
             created_at := row.created_at
             updated_at := row.updated_at
             chunk_index := row.chunk_index
             relevance_score := 0 }
    else none

/-! ### Retriever (src/rag/retriever.py) -/

structure RetrieverConfig where
  default_top_k : ℕ
  similarity_threshold : ℚ
  deriving Repr

/-- Assignment chunk.relevance_score = similarity_score (retriever.py 90). -/
def setScore (c : KnowledgeChunk) (s : ℚ) : KnowledgeChunk :=
  { c with relevance_score := s }

/-- Ordering used by filtered_chunks.sort(key=relevance_score, reverse=True):
a may be placed before b exactly when b's score does not exceed a's.  With
this relation, stable insertion sort reproduces Python's stable descending
sort by key. -/
def scoreGE (a b : KnowledgeChunk) : Prop :=
  b.relevance_score ≤ a.relevance_score

instance : DecidableRel scoreGE := fun a b =>
  inferInstanceAs (Decidable (b.relevance_score ≤ a.relevance_score))

instance : IsTotal KnowledgeChunk scoreGE :=
  ⟨fun a b => (le_total b.relevance_score a.relevance_score).imp id id⟩

instance : IsTrans KnowledgeChunk scoreGE :=
  ⟨fun _ _ _ h1 h2 => le_trans h2 h1⟩

/-- Python's list.sort(key=..., reverse=True) is a stable descending sort by
key; stable insertion sort with scoreGE computes the same list. -/
def sortByScoreDesc (l : List KnowledgeChunk) : List KnowledgeChunk :=
  List.insertionSort scoreGE l

/-- The filtering loop of search (retriever.py 86-91): keep the pairs whose
similarity reaches the threshold and store the similarity into each kept
chunk's relevance_score. -/
def ragFiltered (threshold : ℚ)
    (results : List (KnowledgeChunk × ℚ)) : List KnowledgeChunk :=
  (results.filter (fun p => threshold ≤ p.2)).map (fun p => setScore p.1 p.2)

/-- Filter by threshold, attach scores, sort descending, truncate
(retriever.py 86-95). -/
def ragSearchCore (threshold : ℚ) (top_k : ℕ)
    (results : List (KnowledgeChunk × ℚ)) : List KnowledgeChunk :=
  (sortByScoreDesc (ragFiltered threshold results)).take top_k

abbrev MetadataFilter := List (String × String)

/-- RAGRetriever.search (retriever.py 45-102).  encodeQuery is the outcome of
self.embeddings_service.encode_query(query); indexQuery is the Chroma
collection query oracle, invoked with n_results = top_k * 2.  Any error from
either oracle is caught and converted to the empty list. -/
def RAGRetriever.search (cfg : RetrieverConfig)
    (encodeQuery : Except Unit (List ℚ))
    (indexQuery : List ℚ → ℕ → Option MetadataFilter → Except Unit (List QueryRow))
    (query : String) (top_k : Option ℕ) (metadata_filter : Option MetadataFilter)
    (similarity_threshold : Option ℚ) : List KnowledgeChunk :=
  if pyBlank query then []
  else
    let k := top_k.getD cfg.default_top_k
    let t := similarity_threshold.getD cfg.similarity_threshold
    match encodeQuery with
    | Except.error _ => []
    | Except.ok qe =>
      ragSearchCore t k (search_similar qe (indexQuery qe (k * 2) metadata_filter))

/-! ### Helper lemmas about buildResults -/

theorem buildResults_ok_of_valid (qe : List ℚ) (rows : List QueryRow)
    (hvalid : ∀ row ∈ rows, validChunkData row.document_id row.content = true) :
    buildResults qe rows =
      Except.ok (rows.map (fun row => (rowToChunk qe row, 1 - row.distance))) := by
  induction rows with
  | nil => rfl
  | cons row rest ih =>
    have h1 := hvalid row (by simp)
    have h2 : ∀ r ∈ rest, validChunkData r.document_id r.content = true :=
      fun r hr => hvalid r (by simp [hr])
    simp [buildResults, h1, ih h2]

theorem buildResults_embedding (qe : List ℚ) :
    ∀ (rows : List QueryRow) (ps : List (KnowledgeChunk × ℚ)),
      buildResults qe rows = Except.ok ps → ∀ p ∈ ps, p.1.embedding = qe := by
  intro rows
  induction rows with
  | nil =>
    intro ps h p hp
    simp only [buildResults] at h
    cases h
    simp at hp
  | cons row rest ih =>
    intro ps h p hp
    by_cases hv : validChunkData row.document_id row.content = true
    · simp only [buildResults, hv, if_true] at h
      cases hrec : buildResults qe rest with
      | error e => rw [hrec] at h; cases h
      | ok qs =>
        rw [hrec] at h
        cases h
        rcases List.mem_cons.mp hp with h' | h'
        · subst h'; rfl
        · exact ih qs hrec p h'
    · simp only [buildResults, hv, if_false] at h
      cases h

theorem buildResults_error_of_invalid (qe : List ℚ) :
    ∀ rows : List QueryRow,
      (∃ row ∈ rows, validChunkData row.document_id row.content = false) →
      buildResults qe rows = Except.error () := by
  intro rows
  induction rows with
  | nil => rintro ⟨row, hmem, _⟩; simp at hmem
  | cons row rest ih =>
    rintro ⟨r, hmem, hbad⟩
    rcases List.mem_cons.mp hmem with h' | h'
    · subst h'
      simp [buildResults, hbad]
    · by_cases hv : validChunkData row.document_id row.content = true
      · simp [buildResults, hv, ih ⟨r, h', hbad⟩]
      · simp [buildResults, hv]

/-! ### Claim C3: similarity score attached by search_similar -/

/-- A query row whose reported distance lies outside [0,1]. -/
def c3Row : QueryRow :=
  { id := "x", document_id := "d", title := "t", content := "c"
    extra_metadata := [], created_at := "", updated_at := "", chunk_index := 0
    distance := 2 }

/-- C3 counterexample: with a reported distance of 2, search_similar attaches
the similarity score 1 - 2 = -1 to the returned chunk.  The score is not
clamped to [0,1]: it is negative and differs from the clamped value
max 0 (min 1 (1 - distance)) = 0 claimed by the spec. -/
theorem c3_counterexample :
    (search_similar [(1 : ℚ)] (Except.ok [c3Row])).map Prod.snd = [(-1 : ℚ)] ∧
    ¬ ((0 : ℚ) ≤ -1) ∧ (-1 : ℚ) ≠ max 0 (min 1 (1 - c3Row.distance)) := by
  have hs : search_similar [(1 : ℚ)] (Except.ok [c3Row]) =
      [(rowToChunk [(1 : ℚ)] c3Row, 1 - c3Row.distance)] := by
    simp [search_similar, buildResults_ok_of_valid [(1 : ℚ)] [c3Row] (by decide)]
  refine ⟨?_, by norm_num, by norm_num [c3Row]⟩
  rw [hs]
  norm_num [c3Row]

/-- C3 (amended): for every query result row the similarity score attached to
the returned chunk equals 1 - distance with NO clamping, so it can lie outside
[0,1] when the index reports a distance below 0 or above 1.  Each returned
pair is exactly the reconstructed chunk together with 1 - distance. -/
theorem c3_score_is_one_sub_distance (qe : List ℚ) (rows : List QueryRow)
    (hvalid : ∀ row ∈ rows, validChunkData row.document_id row.content = true) :
    search_similar qe (Except.ok rows) =
      rows.map (fun row => (rowToChunk qe row, 1 - row.distance)) := by
  simp [search_similar, buildResults_ok_of_valid qe rows hvalid]

/-- Witness for C3's amended theorem at a concrete row of distance 2. -/
theorem c3_score_is_one_sub_distance_witness :
    search_similar [(1 : ℚ)] (Except.ok [c3Row]) =
      [(rowToChunk [(1 : ℚ)] c3Row, 1 - c3Row.distance)] := by
  simpa using c3_score_is_one_sub_distance [(1 : ℚ)] [c3Row] (by decide)

/-! ### Claim C4: retrieval never raises, errors degrade to the empty list -/

/-- C4: RAGRetriever.search is a total function into lists (so it never
propagates an exception), and any provider error, index error, or malformed
index row makes it return the empty list. -/
theorem c4_search_errors_give_empty (cfg : RetrieverConfig)
    (encodeQuery : Except Unit (List ℚ))
    (indexQuery : List ℚ → ℕ → Option MetadataFilter → Except Unit (List QueryRow))
    (query : String) (top_k : Option ℕ) (mf : Option MetadataFilter)
    (thr : Option ℚ) :
    (encodeQuery = Except.error () →
      RAGRetriever.search cfg encodeQuery indexQuery query top_k mf thr = []) ∧
    (∀ qe, encodeQuery = Except.ok qe →
      indexQuery qe (top_k.getD cfg.default_top_k * 2) mf = Except.error () →
      RAGRetriever.search cfg encodeQuery indexQuery query top_k mf thr = []) ∧
    (∀ qe rows, encodeQuery = Except.ok qe →
      indexQuery qe (top_k.getD cfg.default_top_k * 2) mf = Except.ok rows →
      (∃ row ∈ rows, validChunkData row.document_id row.content = false) →
      RAGRetriever.search cfg encodeQuery indexQuery query top_k mf thr = []) := by
  refine ⟨fun he => ?_, fun qe he hq => ?_, fun qe rows he hq hbad => ?_⟩
  · unfold RAGRetriever.search
    cases hb : pyBlank query <;> simp [he]
  · unfold RAGRetriever.search
    cases hb : pyBlank query <;>
      simp [he, hq, search_similar, ragSearchCore, ragFiltered, sortByScoreDesc]
  · unfold RAGRetriever.search
    cases hb : pyBlank query <;>
      simp [he, hq, search_similar, buildResults_error_of_invalid qe rows hbad,
        ragSearchCore, ragFiltered, sortByScoreDesc]

/-- Witness for C4 with a failing embedding provider. -/
theorem c4_search_errors_give_empty_witness :
    RAGRetriever.search ⟨5, 7/10⟩ (Except.error ())
      (fun _ _ _ => Except.ok []) "what is jerry" none none none = [] :=
  (c4_search_errors_give_empty ⟨5, 7/10⟩ (Except.error ())
    (fun _ _ _ => Except.ok []) "what is jerry" none none none).1 rfl

/-! ### Claim C10: embeddings carried by returned chunks -/

/-- C10: every chunk produced by search_similar carries the query embedding
that was passed in (not the stored embedding), and every chunk produced by
get_chunk carries the empty embedding list. -/
theorem c10_returned_embeddings (qe : List ℚ) (res : Except Unit (List QueryRow))
    (cid : String) (g : Except Unit (Option GetRow)) :
    (∀ p ∈ search_similar qe res, p.1.embedding = qe) ∧
    (∀ c, get_chunk cid g = some c → c.embedding = []) := by
  constructor
  · intro p hp
    cases res with
    | error e => simp [search_similar] at hp
    | ok rows =>
      cases hb : buildResults qe rows with
      | error e => simp [search_similar, hb] at hp
      | ok ps =>
        simp only [search_similar, hb] at hp
        exact buildResults_embedding qe rows ps hb p hp
  · intro c hc
    cases g with
    | error e => simp [get_chunk] at hc
    | ok o =>
      cases o with
      | none => simp [get_chunk] at hc
      | some row =>
        by_cases hv : validChunkData row.document_id row.content = true
        · simp only [get_chunk, hv, if_true, Option.some.injEq] at hc
          subst hc
          rfl
        · simp [get_chunk, hv] at hc

/-- A concrete get row for the C10 witness. -/
def c10GetRow : GetRow :=
  { document_id := "doc", title := "t", content := "body"
    extra_metadata := [], created_at := "", updated_at := "", chunk_index := 1 }

/-- The chunk get_chunk rebuilds from c10GetRow. -/
def c10GotChunk : KnowledgeChunk :=
  { id := "cid", document_id := "doc", title := "t", content := "body"
    embedding := [], metadata := [], created_at := "", updated_at := ""
    chunk_index := 1, relevance_score := 0 }

/-- A concrete query row for the C10 witness. -/
def c10Row : QueryRow :=
  { id := "y", document_id := "doc", title := "t", content := "body"
    extra_metadata := [], created_at := "", updated_at := "", chunk_index := 0
    distance := 1/4 }

/-- Witness for C10 on concrete store answers. -/
theorem c10_returned_embeddings_witness :
    (rowToChunk [(2 : ℚ)] c10Row, 1 - c10Row.distance).1.embedding = [(2 : ℚ)] ∧
    c10GotChunk.embedding = [] := by
  have hs : search_similar [(2 : ℚ)] (Except.ok [c10Row]) =
      [(rowToChunk [(2 : ℚ)] c10Row, 1 - c10Row.distance)] := by
    simp [search_similar, buildResults_ok_of_valid [(2 : ℚ)] [c10Row] (by decide)]
  have hg : get_chunk "cid" (Except.ok (some c10GetRow)) = some c10GotChunk := by
    simp [get_chunk, c10GetRow, validChunkData, c10GotChunk]
  constructor
  · exact (c10_returned_embeddings [(2 : ℚ)]
      (Except.ok [c10Row]) "cid" (Except.ok (some c10GetRow))).1
      (rowToChunk [(2 : ℚ)] c10Row, 1 - c10Row.distance) (by rw [hs]; simp)
  · exact (c10_returned_embeddings [(2 : ℚ)]
      (Except.ok [c10Row]) "cid" (Except.ok (some c10GetRow))).2
      c10GotChunk hg

/-! ### Sorting lemmas for the stable descending sort -/

theorem sortByScoreDesc_cons (c : KnowledgeChunk) (l : List KnowledgeChunk) :
    sortByScoreDesc (c :: l) = List.orderedInsert scoreGE c (sortByScoreDesc l) := rfl

theorem mem_sortByScoreDesc {c : KnowledgeChunk} {l : List KnowledgeChunk} :
    c ∈ sortByScoreDesc l ↔ c ∈ l := List.mem_insertionSort scoreGE

theorem sorted_sortByScoreDesc (l : List KnowledgeChunk) :
    List.Pairwise scoreGE (sortByScoreDesc l) :=
  List.sorted_insertionSort scoreGE l

theorem orderedInsert_filter_pos (a : KnowledgeChunk) (s : ℚ)
    (ha : a.relevance_score = s) (l : List KnowledgeChunk) :
    (List.orderedInsert scoreGE a l).filter (fun c => decide (c.relevance_score = s)) =
      a :: l.filter (fun c => decide (c.relevance_score = s)) := by
  induction l with
  | nil => simp [ha]
  | cons b m ih =>
    by_cases h : scoreGE a b
    · rw [List.orderedInsert, if_pos h]
      simp [List.filter_cons, ha]
    · rw [List.orderedInsert, if_neg h]
      have hb : ¬ (b.relevance_score = s) := by
        intro hb
        exact h (by simp [scoreGE, hb, ha])
      simp [List.filter_cons, hb, ih]

theorem orderedInsert_filter_neg (a : KnowledgeChunk) (s : ℚ)
    (ha : ¬ a.relevance_score = s) (l : List KnowledgeChunk) :
    (List.orderedInsert scoreGE a l).filter (fun c => decide (c.relevance_score = s)) =
      l.filter (fun c => decide (c.relevance_score = s)) := by
  induction l with
  | nil => simp [ha]
  | cons b m ih =>
    by_cases h : scoreGE a b
    · rw [List.orderedInsert, if_pos h]
      simp [List.filter_cons, ha]
    · rw [List.orderedInsert, if_neg h]
      simp [List.filter_cons, ih]

/-- Stability of the sort: for every score value, the chunks carrying that
score appear in the sorted list in exactly their original order. -/
theorem sortByScoreDesc_filter_eq (l : List KnowledgeChunk) (s : ℚ) :
    (sortByScoreDesc l).filter (fun c => decide (c.relevance_score = s)) =
      l.filter (fun c => decide (c.relevance_score = s)) := by
  induction l with
  | nil => rfl
  | cons a m ih =>
    rw [sortByScoreDesc_cons]
    by_cases ha : a.relevance_score = s
    · rw [orderedInsert_filter_pos a s ha, ih, List.filter_cons_of_pos (by simp [ha])]
    · rw [orderedInsert_filter_neg a s ha, ih, List.filter_cons_of_neg (by simp [ha])]

theorem orderedInsert_append_left (a : KnowledgeChunk) (X M : List KnowledgeChunk)
    (hX : ∀ x ∈ X, ¬ scoreGE a x) :
    List.orderedInsert scoreGE a (X ++ M) = X ++ List.orderedInsert scoreGE a M := by
  induction X with
  | nil => rfl
  | cons x xs ih =>
    rw [List.cons_append, List.orderedInsert, if_neg (hX x (by simp)),
      ih (fun y hy => hX y (by simp [hy])), List.cons_append]

theorem orderedInsert_append_right (a : KnowledgeChunk) (X M : List KnowledgeChunk)
    (hM : ∀ m ∈ M, scoreGE a m) :
    List.orderedInsert scoreGE a (X ++ M) = List.orderedInsert scoreGE a X ++ M := by
  induction X with
  | nil =>
    cases M with
    | nil => rfl
    | cons m ms =>
      have h := hM m (by simp)
      simp [List.orderedInsert, h]
  | cons x xs ih =>
    by_cases h : scoreGE a x
    · rw [List.cons_append, List.orderedInsert, if_pos h, List.orderedInsert, if_pos h,
        List.cons_append, List.cons_append]
    · rw [List.cons_append, List.orderedInsert, if_neg h, List.orderedInsert, if_neg h,
        ih, List.cons_append]

/-- Splitting a sorted threshold filter: the sorted list of chunks passing the
lower threshold t1 is the sorted list of those passing t2 followed by the
sorted list of those in between. -/
theorem sortByScoreDesc_filter_split (l : List KnowledgeChunk) (t1 t2 : ℚ)
    (h12 : t1 ≤ t2) :
    sortByScoreDesc (l.filter (fun c => decide (t1 ≤ c.relevance_score))) =
      sortByScoreDesc (l.filter (fun c => decide (t2 ≤ c.relevance_score))) ++
      sortByScoreDesc (l.filter
        (fun c => decide (t1 ≤ c.relevance_score) && ! decide (t2 ≤ c.relevance_score))) := by
  induction l with
  | nil => rfl
  | cons c m ih =>
    by_cases h2 : t2 ≤ c.relevance_score
    · have h1 : t1 ≤ c.relevance_score := le_trans h12 h2
      rw [List.filter_cons_of_pos (by simp [h1]), List.filter_cons_of_pos (by simp [h2]),
        List.filter_cons_of_neg (by simp [h2]), sortByScoreDesc_cons, sortByScoreDesc_cons, ih]
      refine orderedInsert_append_right c _ _ ?_
      intro b hb
      have hb' := mem_sortByScoreDesc.mp hb
      have := List.of_mem_filter hb'
      simp only [Bool.and_eq_true, Bool.not_eq_true', decide_eq_true_eq,
        decide_eq_false_iff_not] at this
      exact le_trans (le_of_lt (lt_of_not_le this.2)) h2
    · by_cases h1 : t1 ≤ c.relevance_score
      · rw [List.filter_cons_of_pos (by simp [h1]), List.filter_cons_of_neg (by simp [h2]),
          List.filter_cons_of_pos (by simp [h1, h2]), sortByScoreDesc_cons,
          sortByScoreDesc_cons, ih]
        refine orderedInsert_append_left c _ _ ?_
        intro x hx
        have hx' := mem_sortByScoreDesc.mp hx
        have := List.of_mem_filter hx'
        simp only [decide_eq_true_eq] at this
        intro hge
        exact h2 (le_trans this hge)
      · rw [List.filter_cons_of_neg (by simp [h1]), List.filter_cons_of_neg (by simp [h2]),
          List.filter_cons_of_neg (by simp [h1]), ih]

/-! ### Claim C5: postconditions of RAGRetriever.search -/

/-- C5: for a non-blank query (with the provider succeeding), every returned
chunk scores at least the effective threshold, the result has at most the
effective top_k entries, it is descending in relevance_score, and chunks with
equal score keep their original order (the filtered list order, which is the
index rank order); a blank query returns the empty list. -/
theorem c5_search_postconditions (cfg : RetrieverConfig)
    (encodeQuery : Except Unit (List ℚ))
    (indexQuery : List ℚ → ℕ → Option MetadataFilter → Except Unit (List QueryRow))
    (query : String) (top_k : Option ℕ) (mf : Option MetadataFilter)
    (thr : Option ℚ) :
    (pyBlank query = true →
      RAGRetriever.search cfg encodeQuery indexQuery query top_k mf thr = []) ∧
    (pyBlank query = false → ∀ qe, encodeQuery = Except.ok qe →
      (∀ c ∈ RAGRetriever.search cfg encodeQuery indexQuery query top_k mf thr,
        thr.getD cfg.similarity_threshold ≤ c.relevance_score) ∧
      (RAGRetriever.search cfg encodeQuery indexQuery query top_k mf thr).length ≤
        top_k.getD cfg.default_top_k ∧
      List.Pairwise scoreGE
        (RAGRetriever.search cfg encodeQuery indexQuery query top_k mf thr) ∧
      (∀ s : ℚ, ∃ rest,
        (ragFiltered (thr.getD cfg.similarity_threshold)
            (search_similar qe
              (indexQuery qe (top_k.getD cfg.default_top_k * 2) mf))).filter
          (fun c => decide (c.relevance_score = s)) =
        (RAGRetriever.search cfg encodeQuery indexQuery query top_k mf thr).filter
          (fun c => decide (c.relevance_score = s)) ++ rest)) := by
  constructor
  · intro hb
    unfold RAGRetriever.search
    rw [hb]
    rfl
  · intro hb qe he
    have hout : RAGRetriever.search cfg encodeQuery indexQuery query top_k mf thr =
        (sortByScoreDesc (ragFiltered (thr.getD cfg.similarity_threshold)
          (search_similar qe (indexQuery qe (top_k.getD cfg.default_top_k * 2) mf)))).take
          (top_k.getD cfg.default_top_k) := by
      unfold RAGRetriever.search
      rw [hb, he]
      rfl
    rw [hout]
    set t := thr.getD cfg.similarity_threshold with ht
    set k := top_k.getD cfg.default_top_k with hk
    set results := search_similar qe (indexQuery qe (k * 2) mf) with hres
    refine ⟨?_, ?_, ?_, ?_⟩
    · intro c hc
      have h1 : c ∈ sortByScoreDesc (ragFiltered t results) := List.mem_of_mem_take hc
      have h2 : c ∈ ragFiltered t results := mem_sortByScoreDesc.mp h1
      unfold ragFiltered at h2
      rcases List.mem_map.mp h2 with ⟨p, hp, hc'⟩
      have hpt := List.of_mem_filter hp
      simp only [decide_eq_true_eq] at hpt
      rw [← hc']
      simpa [setScore] using hpt
    · exact List.length_take_le k _
    · exact (sorted_sortByScoreDesc _).sublist (List.take_sublist _ _)
    · intro s
      refine ⟨((sortByScoreDesc (ragFiltered t results)).drop k).filter
        (fun c => decide (c.relevance_score = s)), ?_⟩
      rw [← sortByScoreDesc_filter_eq (ragFiltered t results) s]
      conv_lhs => rw [← List.take_append_drop k (sortByScoreDesc (ragFiltered t results))]
      rw [List.filter_append]

/-- Witness data for C5/C6: a deterministic index oracle with three rows. -/
def wRow (n : String) (d : ℚ) : QueryRow :=
  { id := n, document_id := "doc", title := "t", content := n
    extra_metadata := [], created_at := "", updated_at := "", chunk_index := 0
    distance := d }

/-- A deterministic index oracle returning two rows with distances 1/4
and 3/5 (similarities 3/4 and 2/5). -/
def wIndex : List ℚ → ℕ → Option MetadataFilter → Except Unit (List QueryRow) :=
  fun _ _ _ => Except.ok [wRow "a" (1/4), wRow "b" (3/5)]

/-- Witness for C5 at a concrete non-blank query and deterministic oracles. -/
theorem c5_search_postconditions_witness :
    (RAGRetriever.search ⟨5, 7/10⟩ (Except.ok [(1 : ℚ)]) wIndex
      "capital of France" none none none).length ≤ 5 :=
  ((c5_search_postconditions ⟨5, 7/10⟩ (Except.ok [(1 : ℚ)]) wIndex
    "capital of France" none none none).2 (by decide) [(1 : ℚ)] rfl).2.1

/-! ### Claim C6: threshold monotonicity of RAGRetriever.search -/

theorem ragFiltered_eq_filter_map (t : ℚ) (results : List (KnowledgeChunk × ℚ)) :
    ragFiltered t results =
      (results.map (fun p => setScore p.1 p.2)).filter
        (fun c => decide (t ≤ c.relevance_score)) := by
  induction results with
  | nil => rfl
  | cons p ps ih =>
    by_cases h : t ≤ p.2
    · rw [ragFiltered, List.filter_cons_of_pos (by simp [h]), List.map_cons, List.map_cons,
        List.filter_cons_of_pos (by simp [setScore, h]), ← ragFiltered, ih]
    · rw [ragFiltered, List.filter_cons_of_neg (by simp [h]), List.map_cons,
        List.filter_cons_of_neg (by simp [setScore, h]), ← ragFiltered, ih]

/-- C6: with deterministic provider and index oracles, raising the similarity
threshold can only shrink the result: every chunk returned at threshold t2 is
also returned at any lower threshold t1. -/
theorem c6_threshold_monotone (cfg : RetrieverConfig)
    (encodeQuery : Except Unit (List ℚ))
    (indexQuery : List ℚ → ℕ → Option MetadataFilter → Except Unit (List QueryRow))
    (query : String) (top_k : Option ℕ) (mf : Option MetadataFilter)
    (t1 t2 : ℚ) (h12 : t1 < t2) (c : KnowledgeChunk)
    (hc : c ∈ RAGRetriever.search cfg encodeQuery indexQuery query top_k mf (some t2)) :
    c ∈ RAGRetriever.search cfg encodeQuery indexQuery query top_k mf (some t1) := by
  by_cases hb : pyBlank query
  · unfold RAGRetriever.search at hc
    rw [if_pos hb] at hc
    simp at hc
  · cases he : encodeQuery with
    | error e =>
      unfold RAGRetriever.search at hc
      rw [if_neg hb, he] at hc
      simp at hc
    | ok qe =>
      have hform : ∀ t : ℚ,
          RAGRetriever.search cfg encodeQuery indexQuery query top_k mf (some t) =
          (sortByScoreDesc ((search_similar qe
              (indexQuery qe (top_k.getD cfg.default_top_k * 2) mf)).map
              (fun p => setScore p.1 p.2) |>.filter
              (fun c => decide (t ≤ c.relevance_score)))).take
            (top_k.getD cfg.default_top_k) := by
        intro t
        unfold RAGRetriever.search
        rw [if_neg hb, he]
        show ragSearchCore t (top_k.getD cfg.default_top_k) _ = _
        rw [ragSearchCore, ragFiltered_eq_filter_map]
      rw [hform t2] at hc
      rw [← he]
      rw [hform t1]
      set scored := (search_similar qe
        (indexQuery qe (top_k.getD cfg.default_top_k * 2) mf)).map
        (fun p => setScore p.1 p.2) with hscored
      rw [sortByScoreDesc_filter_split scored t1 t2 (le_of_lt h12),
        List.take_append_eq_append_take]
      exact List.mem_append_left _ hc

/-- Witness for C6: at thresholds 1/4 < 1/2 the chunk retrieved at the higher
threshold is also retrieved at the lower one. -/
theorem c6_threshold_monotone_witness :
    setScore (rowToChunk [(1 : ℚ)] (wRow "a" (1/4))) (3/4) ∈
      RAGRetriever.search ⟨5, 7/10⟩ (Except.ok [(1 : ℚ)]) wIndex
        "capital of France" none none (some (1/4)) := by
  refine c6_threshold_monotone ⟨5, 7/10⟩ (Except.ok [(1 : ℚ)]) wIndex
    "capital of France" none none (1/4) (1/2) (by norm_num)
    (setScore (rowToChunk [(1 : ℚ)] (wRow "a" (1/4))) (3/4)) ?_
  have hs : search_similar [(1 : ℚ)] (wIndex [(1 : ℚ)] 10 none) =
      [(rowToChunk [(1 : ℚ)] (wRow "a" (1/4)), 1 - (1/4 : ℚ)),
       (rowToChunk [(1 : ℚ)] (wRow "b" (3/5)), 1 - (3/5 : ℚ))] := by
    show search_similar [(1 : ℚ)] (Except.ok [wRow "a" (1/4), wRow "b" (3/5)]) = _
    rw [search_similar, buildResults_ok_of_valid _ _ (by decide)]
    rfl
  unfold RAGRetriever.search
  rw [if_neg (by decide)]
  show setScore (rowToChunk [(1 : ℚ)] (wRow "a" (1/4))) (3/4) ∈
    ragSearchCore (1/2) 5 (search_similar [(1 : ℚ)] (wIndex [(1 : ℚ)] 10 none))
  rw [hs, ragSearchCore, ragFiltered]
  norm_num [wRow, rowToChunk, sortByScoreDesc, setScore, scoreGE]

/-! ### Hybrid retriever (retriever.py 253-371) -/

structure HybridConfig where
  default_top_k : ℕ
  similarity_threshold : ℚ
  keyword_weight : ℚ
  deriving Repr

/-- HybridRetriever.__init__ line 277: semantic_weight = 1.0 - keyword_weight. -/
def semanticWeight (cfg : HybridConfig) : ℚ := 1 - cfg.keyword_weight

/-- Python query.lower().split(): case-fold, split on whitespace runs,
discard empty tokens. -/
def pyTerms (s : String) : List String :=
  (s.toLower.split (fun c => c.isWhitespace)).filter (fun t => t != "")

/-- Keyword overlap scoring of _keyword_search (retriever.py 295-305):
overlap = |query_terms ∩ content_terms|, score = overlap / max sizes, 0.0 when
both term sets are empty.  Python sets are modelled as deduplicated lists. -/
def keyword_score (query content : String) : ℚ :=
  let qt := (pyTerms query).dedup
  let ct := (pyTerms content).dedup
  let overlap := (qt.filter (fun t => decide (t ∈ ct))).length
  let maxTerms := max qt.length ct.length
  if maxTerms = 0 then 0 else (overlap : ℚ) / (maxTerms : ℚ)

/-- The scores dict of _keyword_search, keyed by str(chunk.id)
(retriever.py 307): iteration order with later assignments overwriting. -/
def keywordScores (query : String) (chunks : List KnowledgeChunk) :
    List (String × ℚ) :=
  chunks.map (fun c => (c.id, keyword_score query c.content))

/-- Python dict.get(key, 0.0) over the assignment list: the latest binding of
the key wins, default when absent. -/
def dictGetD (l : List (String × ℚ)) (k : String) (d : ℚ) : ℚ :=
  ((l.reverse.find? (fun p => p.1 == k)).map Prod.snd).getD d

/-- Python truthiness of top_k in hybrid search (retriever.py 332-334, 370):
`top_k * 2 if top_k else default_top_k * 2` and `top_k or default_top_k` both
treat None and 0 as absent. -/
def hybridTopK (top_k : Option ℕ) (dflt : ℕ) : ℕ :=
  match top_k with
  | some k => if k = 0 then dflt else k
  | none => dflt

/-- The semantic pass of HybridRetriever.search (retriever.py 330-337):
super().search with doubled top_k and the hard-coded relaxed threshold 0.5. -/
def hybridSemanticPass (cfg : HybridConfig)
    (encodeQuery : Except Unit (List ℚ))
    (indexQuery : List ℚ → ℕ → Option MetadataFilter → Except Unit (List QueryRow))
    (query : String) (top_k : Option ℕ) (mf : Option MetadataFilter) :
    List KnowledgeChunk :=
  RAGRetriever.search ⟨cfg.default_top_k, cfg.similarity_threshold⟩
    encodeQuery indexQuery query (some (hybridTopK top_k cfg.default_top_k * 2))
    mf (some (1/2))

/-- HybridRetriever.search (retriever.py 311-371): semantic pass, keyword
scoring, weighted combination written into relevance_score, threshold filter,
descending sort, truncation. -/
def HybridRetriever.search (cfg : HybridConfig)
    (encodeQuery : Except Unit (List ℚ))
    (indexQuery : List ℚ → ℕ → Option MetadataFilter → Except Unit (List QueryRow))
    (query : String) (top_k : Option ℕ) (mf : Option MetadataFilter)
    (similarity_threshold : Option ℚ) : List KnowledgeChunk :=
  let semantic := hybridSemanticPass cfg encodeQuery indexQuery query top_k mf
  if semantic = [] then []
  else
    let kscores := keywordScores query semantic
    let rescored := semantic.map (fun c =>
      setScore c (semanticWeight cfg * c.relevance_score +
        cfg.keyword_weight * dictGetD kscores c.id 0))
    let t := similarity_threshold.getD cfg.similarity_threshold
    let filtered := rescored.filter (fun c => t ≤ c.relevance_score)
    (sortByScoreDesc filtered).take (hybridTopK top_k cfg.default_top_k)

theorem find?_append_cases {α} (p : α → Bool) (X Y : List α) :
    (X ++ Y).find? p = ((X.find? p).map some).getD (Y.find? p) := by
  induction X with
  | nil => simp
  | cons x xs ih =>
    by_cases h : p x
    · simp [List.find?, h]
    · simp only [List.cons_append, List.find?, h]
      exact ih

theorem keywordScores_find (query : String) :
    ∀ (chunks : List KnowledgeChunk),
      chunks.Pairwise (fun a b => a.id ≠ b.id) →
      ∀ c ∈ chunks,
        (keywordScores query chunks).reverse.find? (fun p => p.1 == c.id) =
          some (c.id, keyword_score query c.content) := by
  intro chunks
  induction chunks with
  | nil => intro _ c hc; simp at hc
  | cons a rest ih =>
    intro hpair c hc
    have hpair' := List.pairwise_cons.mp hpair
    rw [keywordScores, List.map_cons, List.reverse_cons, ← keywordScores,
      find?_append_cases]
    rcases List.mem_cons.mp hc with h' | h'
    · subst h'
      have hnone : (keywordScores query rest).reverse.find?
          (fun p => p.1 == c.id) = none := by
        rw [List.find?_eq_none]
        intro x hx
        rcases List.mem_map.mp (List.mem_reverse.mp hx) with ⟨b, hb, hbx⟩
        simp only [← hbx, beq_iff_eq]
        exact fun he => hpair'.1 b hb he.symm
      rw [hnone]
      simp
    · rw [ih hpair'.2 c h']
      simp

/-- C8: assuming the semantic pass returns chunks with pairwise distinct ids
(the index invariant), every chunk returned by HybridRetriever.search scores
semantic_weight * semantic_score + keyword_weight * keyword_score of its own
content, and the two weights sum to 1. -/
theorem c8_hybrid_score_formula (cfg : HybridConfig)
    (encodeQuery : Except Unit (List ℚ))
    (indexQuery : List ℚ → ℕ → Option MetadataFilter → Except Unit (List QueryRow))
    (query : String) (top_k : Option ℕ) (mf : Option MetadataFilter)
    (thr : Option ℚ)
    (hids : (hybridSemanticPass cfg encodeQuery indexQuery query top_k mf).Pairwise
      (fun a b => a.id ≠ b.id)) :
    (∀ c ∈ HybridRetriever.search cfg encodeQuery indexQuery query top_k mf thr,
      ∃ c0 ∈ hybridSemanticPass cfg encodeQuery indexQuery query top_k mf,
        c.id = c0.id ∧ c.content = c0.content ∧
        c.relevance_score = semanticWeight cfg * c0.relevance_score +
          cfg.keyword_weight * keyword_score query c0.content) ∧
    semanticWeight cfg + cfg.keyword_weight = 1 := by
  constructor
  · intro c hc
    set semantic := hybridSemanticPass cfg encodeQuery indexQuery query top_k mf
      with hsem
    by_cases hnil : semantic = []
    · rw [HybridRetriever.search, ← hsem, if_pos hnil] at hc
      simp at hc
    · rw [HybridRetriever.search, ← hsem, if_neg hnil] at hc
      have h1 := List.mem_of_mem_take hc
      have h2 := mem_sortByScoreDesc.mp h1
      have h3 := List.mem_filter.mp h2
      rcases List.mem_map.mp h3.1 with ⟨c0, hc0, hcc⟩
      refine ⟨c0, hc0, ?_, ?_, ?_⟩
      · rw [← hcc]; rfl
      · rw [← hcc]; rfl
      · rw [← hcc]
        show (setScore c0 _).relevance_score = _
        rw [setScore]
        have hdict : dictGetD (keywordScores query semantic) c0.id 0 =
            keyword_score query c0.content := by
          rw [dictGetD, keywordScores_find query semantic hids c0 hc0]
          rfl
        rw [hdict]
  · rw [semanticWeight]
    ring

/-- Witness for C8: with a concrete oracle the semantic pass is a single
chunk with a distinct id, and the weights of config (5, 7/10, 3/10) sum
to 1. -/
theorem c8_hybrid_score_formula_witness :
    semanticWeight ⟨5, 7/10, 3/10⟩ + (3/10 : ℚ) = 1 := by
  have hsem : hybridSemanticPass ⟨5, 7/10, 3/10⟩ (Except.ok [(1 : ℚ)]) wIndex
      "capital of France" none none =
      (sortByScoreDesc (ragFiltered (1/2)
        (search_similar [(1 : ℚ)] (wIndex [(1 : ℚ)] 10 none)))).take 10 := by
    rfl
  exact (c8_hybrid_score_formula ⟨5, 7/10, 3/10⟩ (Except.ok [(1 : ℚ)]) wIndex
    "capital of France" none none none (by
      rw [hsem]
      have hs : search_similar [(1 : ℚ)] (wIndex [(1 : ℚ)] 10 none) =
          [(rowToChunk [(1 : ℚ)] (wRow "a" (1/4)), 1 - (1/4 : ℚ)),
           (rowToChunk [(1 : ℚ)] (wRow "b" (3/5)), 1 - (3/5 : ℚ))] := by
        show search_similar [(1 : ℚ)] (Except.ok [wRow "a" (1/4), wRow "b" (3/5)]) = _
        rw [search_similar, buildResults_ok_of_valid _ _ (by decide)]
        rfl
      rw [hs, ragFiltered]
      norm_num [wRow, rowToChunk, sortByScoreDesc, setScore, scoreGE])).2

/-! ### Embeddings service (src/rag/embeddings.py) -/

/-- The zero vector of the model dimension, used as substitute output
(embeddings.py 101, 118, 130). -/
def zeroVec (D : ℕ) : List ℚ := List.replicate D 0

/-- Structural worker for the batch slicing: the fuel starts at the list
length and, for positive batch size, never runs out before the list does
(each step consumes at least one element). -/
def sliceBatchesGo (bs : ℕ) : ℕ → List String → List (List String)
  | _, [] => []
  | 0, _ :: _ => []
  | fuel + 1, a :: l => (a :: l).take bs :: sliceBatchesGo bs fuel ((a :: l).drop bs)

/-- The batch slices visited by `for i in range(0, len(texts), batch_size)`
with batch = texts[i : i + batch_size] (embeddings.py 107-108).  The
batch_size = 0 case is unreachable because range(0, n, 0) raises first. -/
def sliceBatches (bs : ℕ) (l : List String) : List (List String) :=
  sliceBatchesGo bs l.length l

/-- The accumulation loop over batches (embeddings.py 105-115): each slice is
encoded by the model oracle and the embeddings are appended in order; any
exception aborts the whole loop. -/
def encList (enc : List String → Except Unit (List (List ℚ))) :
    List (List String) → Except Unit (List (List ℚ))
  | [] => Except.ok []
  | b :: rest =>
    match enc b with
    | Except.error e => Except.error e
    | Except.ok es =>
      match encList enc rest with
      | Except.error e => Except.error e
      | Except.ok more => Except.ok (es ++ more)

/-- The whole batched encoding under the try of encode_batch: Python's
range(0, n, 0) raises ValueError, so batch_size = 0 is an error as well. -/
def encodeAllBatches (enc : List String → Except Unit (List (List ℚ)))
    (bs : ℕ) (l : List String) : Except Unit (List (List ℚ)) :=
  if bs = 0 then Except.error ()
  else encList enc (sliceBatches bs l)

/-- The enumerate-and-filter pass of encode_batch (embeddings.py 91-97):
pairs of original index and text for the non-blank texts. -/
def nonEmptyEnum (texts : List String) : List (ℕ × String) :=
  texts.enum.filter (fun p => !pyBlank p.2)

/-- The `result[orig_index] = embedding` assignment loop over
zip(embeddings, text_indices) (embeddings.py 121-122). -/
def writeAll (init : List (List ℚ)) (pairs : List (List ℚ × ℕ)) :
    List (List ℚ) :=
  pairs.foldl (fun acc p => acc.set p.2 p.1) init

/-- EmbeddingsService.encode_batch (embeddings.py 77-130) over the model
oracle enc.  Blank texts are never sent to the model and their slots stay
zero vectors; any exception while encoding replaces the WHOLE result with
zero vectors (the try wraps the entire batch loop). -/
def encode_batch (D : ℕ) (enc : List String → Except Unit (List (List ℚ)))
    (texts : List String) (batch_size : ℕ) : List (List ℚ) :=
  if texts = [] then []
  else
    let fl := nonEmptyEnum texts
    let non_empty := fl.map Prod.snd
    let text_indices := fl.map Prod.fst
    if non_empty = [] then List.replicate texts.length (zeroVec D)
    else
      match encodeAllBatches enc batch_size non_empty with
      | Except.error _ => List.replicate texts.length (zeroVec D)
      | Except.ok embeddings =>
        writeAll (List.replicate texts.length (zeroVec D))
          (embeddings.zip text_indices)

theorem sliceBatchesGo_flatten (bs : ℕ) (hbs : 0 < bs) :
    ∀ (fuel : ℕ) (l : List String), l.length ≤ fuel →
      (sliceBatchesGo bs fuel l).flatten = l := by
  intro fuel
  induction fuel with
  | zero =>
    intro l hl
    have h0 : l = [] := List.eq_nil_of_length_eq_zero (Nat.le_zero.mp hl)
    subst h0
    rfl
  | succ n ih =>
    intro l hl
    cases l with
    | nil => rfl
    | cons a l' =>
      show ((a :: l').take bs :: sliceBatchesGo bs n ((a :: l').drop bs)).flatten =
        a :: l'
      rw [List.flatten_cons, ih ((a :: l').drop bs) ?_, List.take_append_drop]
      rw [List.length_drop]
      simp only [List.length_cons] at hl ⊢
      omega

theorem sliceBatches_flatten (bs : ℕ) (hbs : 0 < bs) (l : List String) :
    (sliceBatches bs l).flatten = l :=
  sliceBatchesGo_flatten bs hbs l.length l (le_refl _)

theorem encList_map_ok (f : String → List ℚ) :
    ∀ batches : List (List String),
      encList (fun b => Except.ok (b.map f)) batches =
        Except.ok (batches.flatten.map f) := by
  intro batches
  induction batches with
  | nil => rfl
  | cons b rest ih => simp [encList, ih]

theorem encodeAllBatches_map_ok (f : String → List ℚ) (bs : ℕ) (hbs : 0 < bs)
    (l : List String) :
    encodeAllBatches (fun b => Except.ok (b.map f)) bs l = Except.ok (l.map f) := by
  rw [encodeAllBatches, if_neg (Nat.pos_iff_ne_zero.mp hbs), encList_map_ok,
    sliceBatches_flatten bs hbs l]

theorem writeAll_length (pairs : List (List ℚ × ℕ)) :
    ∀ init : List (List ℚ), (writeAll init pairs).length = init.length := by
  induction pairs with
  | nil => intro init; rfl
  | cons p rest ih =>
    intro init
    show (writeAll (init.set p.2 p.1) rest).length = init.length
    rw [ih, List.length_set]

theorem writeAll_getElem? (f : String → List ℚ) (texts : List String) :
    ∀ (fl : List (ℕ × String)) (init : List (List ℚ)),
      init.length = texts.length →
      (∀ q ∈ fl, texts[q.1]? = some q.2) →
      ∀ i : ℕ,
        (writeAll init (fl.map (fun q => (f q.2, q.1))))[i]? =
          if ∃ q ∈ fl, q.1 = i then (texts[i]?).map f else init[i]? := by
  intro fl
  induction fl with
  | nil =>
    intro init hlen hq i
    simp [writeAll]
  | cons q fl' ih =>
    intro init hlen hq i
    have hstep : writeAll init ((q :: fl').map (fun q => (f q.2, q.1))) =
        writeAll (init.set q.1 (f q.2)) (fl'.map (fun q => (f q.2, q.1))) := rfl
    rw [hstep, ih (init.set q.1 (f q.2)) (by rw [List.length_set]; exact hlen)
      (fun r hr => hq r (by simp [hr])) i]
    by_cases hmem : ∃ r ∈ fl', r.1 = i
    · rw [if_pos hmem, if_pos ⟨hmem.choose, by simp [hmem.choose_spec.1], hmem.choose_spec.2⟩]
    · rw [if_neg hmem]
      by_cases hqi : q.1 = i
      · have htex : texts[i]? = some q.2 := by rw [← hqi]; exact hq q (by simp)
        have hi : i < init.length := by
          rw [hlen]
          exact (List.getElem?_eq_some.mp htex).1
        rw [if_pos ⟨q, by simp, hqi⟩, ← hqi, List.getElem?_set_self (by rw [hqi]; exact hi),
          hqi, htex]
        rfl
      · rw [List.getElem?_set_ne hqi, if_neg ?_]
        rintro ⟨r, hr, hri⟩
        rcases List.mem_cons.mp hr with h' | h'
        · exact hqi (h' ▸ hri)
        · exact hmem ⟨r, h', hri⟩

theorem mem_nonEmptyEnum_getElem? {texts : List String} {q : ℕ × String}
    (h : q ∈ nonEmptyEnum texts) : texts[q.1]? = some q.2 := by
  have h1 := List.mem_of_mem_filter h
  exact List.mem_enum_iff_getElem?.mp h1

theorem nonEmptyEnum_nil_all_blank {texts : List String}
    (h : nonEmptyEnum texts = []) : ∀ t ∈ texts, pyBlank t = true := by
  intro t ht
  rcases List.mem_iff_getElem?.mp ht with ⟨i, hi⟩
  by_contra hb
  have hmem : (i, t) ∈ nonEmptyEnum texts := by
    rw [nonEmptyEnum, List.mem_filter]
    exact ⟨List.mk_mem_enum_iff_getElem?.mpr hi, by simp [hb]⟩
  rw [h] at hmem
  simp at hmem

/-- C9 counterexample data: 33 texts, so that the default batch_size 32
splits them into two model calls; the oracle succeeds on the first batch and
fails on the second. -/
def c9Texts : List String := List.replicate 32 "a" ++ ["b"]

/-- C9 counterexample oracle: encoding the batch consisting of the single
text "b" raises; every other batch is encoded to constant vectors [1]. -/
def c9Enc : List String → Except Unit (List (List ℚ)) :=
  fun b => if b = ["b"] then Except.error () else Except.ok (b.map (fun _ => [1]))

/-- C9 counterexample: the first batch of 32 texts encodes successfully on
its own, yet because the second batch fails, encode_batch returns zero
vectors for ALL 33 items — the failure is not isolated to the failing item,
and the successfully encoded items do not receive their vectors. -/
theorem c9_counterexample :
    encode_batch 1 c9Enc c9Texts 32 = List.replicate 33 (zeroVec 1) ∧
    c9Enc (List.replicate 32 "a") = Except.ok (List.replicate 32 [(1 : ℚ)]) ∧
    (List.replicate 33 (zeroVec 1))[0]? = some [(0 : ℚ)] ∧
    [(0 : ℚ)] ≠ [(1 : ℚ)] := by
  refine ⟨by decide, rfl, by decide, by decide⟩

/-- C9 (amended): encode_batch always returns one vector per input text in
order; with a per-item deterministic model each blank text maps to the zero
vector and each non-blank text to its own embedding; but an encoding failure
anywhere in the batch loop (including batch_size = 0) zeroes the ENTIRE
result rather than only the failing items. -/
theorem encode_batch_ok (D : ℕ) (enc : List String → Except Unit (List (List ℚ)))
    (texts : List String) (bs : ℕ) (embeddings : List (List ℚ))
    (h0 : ¬ texts = []) (h1 : ¬ (nonEmptyEnum texts).map Prod.snd = [])
    (hok : encodeAllBatches enc bs ((nonEmptyEnum texts).map Prod.snd) =
      Except.ok embeddings) :
    encode_batch D enc texts bs =
      writeAll (List.replicate texts.length (zeroVec D))
        (embeddings.zip ((nonEmptyEnum texts).map Prod.fst)) := by
  rw [encode_batch, if_neg h0]
  show (if (nonEmptyEnum texts).map Prod.snd = [] then _ else _) = _
  rw [if_neg h1, hok]

theorem encode_batch_error (D : ℕ) (enc : List String → Except Unit (List (List ℚ)))
    (texts : List String) (bs : ℕ)
    (h0 : ¬ texts = []) (h1 : ¬ (nonEmptyEnum texts).map Prod.snd = [])
    (herr : encodeAllBatches enc bs ((nonEmptyEnum texts).map Prod.snd) =
      Except.error ()) :
    encode_batch D enc texts bs = List.replicate texts.length (zeroVec D) := by
  rw [encode_batch, if_neg h0]
  show (if (nonEmptyEnum texts).map Prod.snd = [] then _ else _) = _
  rw [if_neg h1, herr]

theorem c9_encode_batch_amended (D : ℕ) :
    (∀ enc texts bs, (encode_batch D enc texts bs).length = texts.length) ∧
    (∀ (f : String → List ℚ) (texts : List String) (bs : ℕ), 0 < bs →
      encode_batch D (fun b => Except.ok (b.map f)) texts bs =
        texts.map (fun t => if pyBlank t then zeroVec D else f t)) ∧
    (∀ enc texts bs,
      encodeAllBatches enc bs ((nonEmptyEnum texts).map Prod.snd) =
        Except.error () →
      encode_batch D enc texts bs = List.replicate texts.length (zeroVec D)) := by
  refine ⟨?_, ?_, ?_⟩
  · intro enc texts bs
    by_cases h0 : texts = []
    · simp [encode_batch, h0]
    · by_cases h1 : (nonEmptyEnum texts).map Prod.snd = []
      · rw [encode_batch, if_neg h0]
        show List.length (if (nonEmptyEnum texts).map Prod.snd = [] then _ else _) = _
        rw [if_pos h1, List.length_replicate]
      · cases hb : encodeAllBatches enc bs ((nonEmptyEnum texts).map Prod.snd) with
        | error e =>
          cases e
          rw [encode_batch_error D enc texts bs h0 h1 hb, List.length_replicate]
        | ok embeddings =>
          rw [encode_batch_ok D enc texts bs embeddings h0 h1 hb, writeAll_length,
            List.length_replicate]
  · intro f texts bs hbs
    by_cases h0 : texts = []
    · simp [encode_batch, h0]
    · by_cases h1 : (nonEmptyEnum texts).map Prod.snd = []
      · rw [encode_batch, if_neg h0]
        show (if (nonEmptyEnum texts).map Prod.snd = [] then _ else _) = _
        rw [if_pos h1]
        have hall := nonEmptyEnum_nil_all_blank (List.map_eq_nil_iff.mp h1)
        apply List.ext_getElem?
        intro i
        rw [List.getElem?_replicate, List.getElem?_map]
        cases hti : texts[i]? with
        | none =>
          have hge : ¬ i < texts.length := by
            intro hlt
            rw [List.getElem?_eq_getElem hlt] at hti
            cases hti
          simp [hge]
        | some t =>
          obtain ⟨hlt, heq⟩ := List.getElem?_eq_some.mp hti
          have hmem : t ∈ texts := heq ▸ List.getElem_mem hlt
          have hblank := hall t hmem
          simp [hlt, hblank]
      · have hzip : (((nonEmptyEnum texts).map Prod.snd).map f).zip
            ((nonEmptyEnum texts).map Prod.fst) =
            (nonEmptyEnum texts).map (fun q => (f q.2, q.1)) := by
          rw [List.map_map, List.zip_map']
          rfl
        rw [encode_batch_ok D _ texts bs _ h0 h1
          (encodeAllBatches_map_ok f bs hbs ((nonEmptyEnum texts).map Prod.snd)),
          hzip]
        apply List.ext_getElem?
        intro i
        rw [writeAll_getElem? f texts (nonEmptyEnum texts)
          (List.replicate texts.length (zeroVec D)) (by rw [List.length_replicate])
          (fun q hq => mem_nonEmptyEnum_getElem? hq) i]
        rw [List.getElem?_map, List.getElem?_replicate]
        by_cases hlt : i < texts.length
        · rw [List.getElem?_eq_getElem hlt]
          by_cases hblank : pyBlank texts[i] = true
          · rw [if_neg ?_]
            · simp [hblank, hlt]
            · rintro ⟨q, hq, hqi⟩
              have h2 := List.mem_filter.mp hq
              have h3 := List.mem_enum_iff_getElem?.mp h2.1
              rw [hqi, List.getElem?_eq_getElem hlt] at h3
              have h4 : q.2 = texts[i] := by
                injection h3 with h3'
                exact h3'.symm
              rw [h4] at h2
              simp [hblank] at h2
          · rw [if_pos ?_]
            · simp [hblank, List.getElem?_eq_getElem hlt]
            · refine ⟨(i, texts[i]), ?_, rfl⟩
              rw [nonEmptyEnum, List.mem_filter]
              exact ⟨List.mk_mem_enum_iff_getElem?.mpr
                (List.getElem?_eq_getElem hlt), by simp [hblank]⟩
        · have hnone : texts[i]? = none := List.getElem?_eq_none (Nat.le_of_not_lt hlt)
          rw [if_neg ?_]
          · simp [hnone, hlt]
          · rintro ⟨q, hq, hqi⟩
            have h2 := mem_nonEmptyEnum_getElem? hq
            rw [hqi, hnone] at h2
            cases h2
  · intro enc texts bs herr
    by_cases h0 : texts = []
    · simp [encode_batch, h0]
    · by_cases h1 : (nonEmptyEnum texts).map Prod.snd = []
      · rw [encode_batch, if_neg h0]
        show (if (nonEmptyEnum texts).map Prod.snd = [] then _ else _) = _
        rw [if_pos h1]
      · exact encode_batch_error D enc texts bs h0 h1 herr

/-- Witness for C9's amended theorem: two texts, the second blank, encoded
with the constant per-item model at batch size 32. -/
theorem c9_encode_batch_amended_witness :
    encode_batch 1 (fun b => Except.ok (b.map (fun _ => [(1 : ℚ)]))) ["a", " "] 32 =
      [[(1 : ℚ)], [(0 : ℚ)]] := by
  rw [(c9_encode_batch_amended 1).2.1 (fun _ => [(1 : ℚ)]) ["a", " "] 32 (by norm_num)]
  decide

/-! ### Semantic cache (src/utils/cache.py) -/

/-- One row of the cache_entries table (cache.py 62-77).  Timestamps are
rationals; datetime comparisons (stored in ISO text order) are order
isomorphic to them. -/
structure DBEntry where
  id : String
  query_hash : String
  query_text : String
  query_embedding : List ℚ
  response : String
  model_used : String
  context_hash : String
  created_at : ℚ
  last_accessed : ℚ
  access_count : ℕ
  ttl_seconds : ℕ
  expires_at : ℚ
  deriving DecidableEq, Repr

structure CacheConfig where
  similarity_threshold : ℚ
  default_ttl_seconds : ℕ
  max_cache_size : ℕ
  deriving Repr

/-- Dot product over zip(embedding1, embedding2, strict=False)
(cache.py 129): the shorter vector truncates the longer. -/
def dotProduct : List ℚ → List ℚ → ℚ
  | a :: as, b :: bs => a * b + dotProduct as bs
  | _, _ => 0

def sumSquares (l : List ℚ) : ℚ := (l.map (fun a => a * a)).sum

/-- SemanticCache._calculate_similarity (cache.py 114-141): cosine similarity
with a zero-magnitude guard, clamped to [0,1].  math.sqrt is an oracle
parameter; the claims about get constrain the resulting similarity values
only through their stated hypotheses. -/
def calculate_similarity (sqrtFn : ℚ → ℚ) (e1 e2 : List ℚ) : ℚ :=
  let dot := dotProduct e1 e2
  let m1 := sqrtFn (sumSquares e1)
  let m2 := sqrtFn (sumSquares e2)
  if m1 = 0 ∨ m2 = 0 then 0
  else max 0 (min 1 (dot / (m1 * m2)))

/-- Python `ttl_seconds or self.default_ttl_seconds` (cache.py 344): None and
0 are both falsy and select the default TTL. -/
def pyOrNat (x : Option ℕ) (d : ℕ) : ℕ :=
  match x with
  | some n => if n = 0 then d else n
  | none => d

/-- The WHERE clause of get's SELECT (cache.py 257-265): same context hash and
model, and expires_at strictly after the current time. -/
def cacheCandidates (st : List DBEntry) (context_hash model_used : String)
    (now : ℚ) : List DBEntry :=
  st.filter (fun e => e.context_hash == context_hash &&
    e.model_used == model_used && decide (now < e.expires_at))

/-- The best-match scan of get (cache.py 269-296): keep an entry only when
its similarity strictly beats the best so far and reaches the threshold. -/
def bestMatch (threshold : ℚ) (sim : DBEntry → ℚ)
    (candidates : List DBEntry) : Option DBEntry × ℚ :=
  candidates.foldl
    (fun acc e =>
      let s := sim e
      if acc.2 < s ∧ threshold ≤ s then (some e, s) else acc)
    (none, 0)

/-- SemanticCache.get (cache.py 228-319) over the store state st (rows in
scan order), the embedding oracle emb and the sqrt oracle.  The 1-percent
expired-row cleanup (line 245) deletes only rows the SELECT filter excludes,
and the access-statistics UPDATE does not alter the returned value, so only
the returned response is modelled. -/
def SemanticCache.get (cfg : CacheConfig) (sqrtFn : ℚ → ℚ)
    (emb : String → List ℚ) (st : List DBEntry) (now : ℚ)
    (query : String) (context_hash model_used : String) : Option String :=
  if pyBlank query then none
  else
    let qe := emb query
    let best := bestMatch cfg.similarity_threshold
      (fun e => calculate_similarity sqrtFn qe e.query_embedding)
      (cacheCandidates st context_hash model_used now)
    best.1.map (fun e => e.response)

/-- The field names declared by the dataclass models.CacheEntry
(models.py 102-109). -/
def cacheEntryFields : List String := ["key", "value", "created_at", "expires_at"]

/-- The models.CacheEntry fields without default values. -/
def cacheEntryRequired : List String := ["key", "value"]

/-- The keyword arguments passed to CacheEntry(...) by SemanticCache.put
(cache.py 357-368). -/
def putKwargs : List String :=
  ["id", "query_hash", "query_embedding", "response", "model_used",
   "context_hash", "created_at", "last_accessed", "access_count", "ttl_seconds"]

/-- Python dataclass keyword construction succeeds exactly when every keyword
is a declared field and every field without a default is supplied; otherwise
__init__ raises TypeError. -/
def dataclassAccepts (fields required kwargs : List String) : Bool :=
  kwargs.all (fun k => fields.contains k) &&
    required.all (fun k => kwargs.contains k)

/-- Ascending order on last_accessed used by the LRU sweep. -/
def lruOrder (a b : DBEntry) : Prop := a.last_accessed ≤ b.last_accessed

instance : DecidableRel lruOrder := fun a b =>
  inferInstanceAs (Decidable (a.last_accessed ≤ b.last_accessed))

/-- SemanticCache._cleanup_lru (cache.py 189-226): when over capacity, delete
the count - max_size + 100 rows with the oldest last_accessed. -/
def cleanupLru (cfg : CacheConfig) (st : List DBEntry) : List DBEntry :=
  if st.length ≤ cfg.max_cache_size then st
  else
    let victims := ((List.insertionSort lruOrder st).take
      (st.length - cfg.max_cache_size + 100)).map (fun e => e.id)
    st.filter (fun e => !victims.contains e.id)

/-- SemanticCache.put (cache.py 321-404).  After the blank guards and the
Python-or TTL default, it constructs models.CacheEntry with the keywords of
putKwargs; the dataclass declares only cacheEntryFields, so the construction
raises TypeError, the surrounding except catches it, nothing is written and
False is returned.  The success branch (INSERT OR REPLACE on the unique
query_hash followed by the LRU sweep) is consequently unreachable. -/
def SemanticCache.put (cfg : CacheConfig)
    (emb : String → List ℚ) (ctxHash : List (String × String) → String)
    (qHash : String → String → String)
    (st : List DBEntry) (now : ℚ) (query response : String)
    (context : List (String × String)) (model_used : String)
    (ttl_seconds : Option ℕ) : Bool × List DBEntry :=
  if pyBlank query || pyBlank response then (false, st)
  else
    let ttl := pyOrNat ttl_seconds cfg.default_ttl_seconds
    let context_hash := ctxHash context
    let query_hash := qHash query context_hash
    let qe := emb query
    let expires_at := now + (ttl : ℚ)
    if dataclassAccepts cacheEntryFields cacheEntryRequired putKwargs then
      let entry : DBEntry :=
        { id := "", query_hash := query_hash, query_text := query
          query_embedding := qe, response := response, model_used := model_used
          context_hash := context_hash, created_at := now, last_accessed := now
          access_count := 1, ttl_seconds := ttl, expires_at := expires_at }
      (true, cleanupLru cfg (st.filter (fun e => e.query_hash != query_hash) ++ [entry]))
    else (false, st)

theorem put_always_false (cfg : CacheConfig)
    (emb : String → List ℚ) (ctxHash : List (String × String) → String)
    (qHash : String → String → String) (st : List DBEntry) (now : ℚ)
    (query response : String) (context : List (String × String))
    (model_used : String) (ttl_seconds : Option ℕ) :
    SemanticCache.put cfg emb ctxHash qHash st now query response context
      model_used ttl_seconds = (false, st) := by
  unfold SemanticCache.put
  have hd : dataclassAccepts cacheEntryFields cacheEntryRequired putKwargs = false := by
    decide
  cases hb : pyBlank query || pyBlank response
  · simp [hb, hd]
  · simp [hb]

theorem get_on_empty (cfg : CacheConfig) (sqrtFn : ℚ → ℚ)
    (emb : String → List ℚ) (now : ℚ) (query ch model : String) :
    SemanticCache.get cfg sqrtFn emb [] now query ch model = none := by
  unfold SemanticCache.get
  cases hb : pyBlank query <;> simp [hb, bestMatch, cacheCandidates]

/-- C1 (code bug): the put/get round trip always fails.  put never stores:
constructing models.CacheEntry with put's keyword arguments raises TypeError
(the dataclass has fields key/value/created_at/expires_at only), the except
swallows it and put returns False with the store unchanged.  A following get
on the untouched (initially empty) store hence returns none, not the stored
response. -/
theorem c1_put_roundtrip_bug (cfg : CacheConfig) (sqrtFn : ℚ → ℚ)
    (emb : String → List ℚ) (ctxHash : List (String × String) → String)
    (qHash : String → String → String) (st : List DBEntry) (now now2 : ℚ)
    (query response : String) (context : List (String × String))
    (model_used : String) (ttl_seconds : Option ℕ) :
    SemanticCache.put cfg emb ctxHash qHash st now query response context
      model_used ttl_seconds = (false, st) ∧
    SemanticCache.get cfg sqrtFn emb
      (SemanticCache.put cfg emb ctxHash qHash [] now query response context
        model_used ttl_seconds).2 now2 query (ctxHash context) model_used = none := by
  constructor
  · exact put_always_false cfg emb ctxHash qHash st now query response context
      model_used ttl_seconds
  · rw [put_always_false cfg emb ctxHash qHash [] now query response context
      model_used ttl_seconds]
    exact get_on_empty cfg sqrtFn emb now2 query (ctxHash context) model_used

theorem bestMatch_scan (threshold : ℚ) (sim : DBEntry → ℚ) :
    ∀ (l : List DBEntry) (acc : Option DBEntry × ℚ) (e : DBEntry),
      (l.foldl
        (fun acc e =>
          let s := sim e
          if acc.2 < s ∧ threshold ≤ s then (some e, s) else acc) acc).1 = some e →
      acc.1 = some e ∨ e ∈ l := by
  intro l
  induction l with
  | nil => intro acc e h; exact Or.inl h
  | cons x xs ih =>
    intro acc e h
    rw [List.foldl_cons] at h
    rcases ih _ e h with h' | h'
    · by_cases hc : acc.2 < sim x ∧ threshold ≤ sim x
      · rw [if_pos hc] at h'
        simp only [Option.some.injEq] at h'
        exact Or.inr (by simp [h'])
      · rw [if_neg hc] at h'
        exact Or.inl h'
    · exact Or.inr (by simp [h'])

theorem bestMatch_mem (threshold : ℚ) (sim : DBEntry → ℚ)
    (candidates : List DBEntry) (e : DBEntry)
    (h : (bestMatch threshold sim candidates).1 = some e) : e ∈ candidates := by
  rcases bestMatch_scan threshold sim candidates (none, 0) e h with h' | h'
  · cases h'
  · exact h'

/-- C7: expired entries are never served — whenever get returns a response,
it is the response of a store row matching the context hash and model whose
expires_at is strictly in the future at lookup time; and immediately after
put with ttl_seconds = 0 (on a store with no other matching entry: here the
empty store, since put persists nothing), get returns none. -/
theorem c7_expired_never_served (cfg : CacheConfig) (sqrtFn : ℚ → ℚ)
    (emb : String → List ℚ) :
    (∀ (st : List DBEntry) (now : ℚ) (query ch model r : String),
      SemanticCache.get cfg sqrtFn emb st now query ch model = some r →
      ∃ e ∈ st, e.context_hash = ch ∧ e.model_used = model ∧
        now < e.expires_at ∧ e.response = r) ∧
    (∀ (ctxHash : List (String × String) → String)
       (qHash : String → String → String) (now now2 : ℚ)
       (query response : String) (context : List (String × String))
       (model : String),
      SemanticCache.get cfg sqrtFn emb
        (SemanticCache.put cfg emb ctxHash qHash [] now query response context
          model (some 0)).2 now2 query (ctxHash context) model = none) := by
  constructor
  · intro st now query ch model r hget
    unfold SemanticCache.get at hget
    by_cases hb : pyBlank query = true
    · rw [if_pos hb] at hget; cases hget
    · rw [if_neg hb] at hget
      simp only [Option.map_eq_some'] at hget
      rcases hget with ⟨e, he, hr⟩
      have hmem := bestMatch_mem cfg.similarity_threshold _ _ e he
      have hf := List.mem_filter.mp hmem
      simp only [Bool.and_eq_true, beq_iff_eq, decide_eq_true_eq] at hf
      exact ⟨e, hf.1, hf.2.1.1, hf.2.1.2, hf.2.2, hr⟩
  · intro ctxHash qHash now now2 query response context model
    rw [put_always_false cfg emb ctxHash qHash [] now query response context
      model (some 0)]
    exact get_on_empty cfg sqrtFn emb now2 query (ctxHash context) model

/-- A concrete unexpired cache row for the C7 witness. -/
def c7Entry : DBEntry :=
  { id := "e1", query_hash := "qh", query_text := "hello"
    query_embedding := [1], response := "Paris", model_used := "m"
    context_hash := "h", created_at := 0, last_accessed := 0
    access_count := 1, ttl_seconds := 10, expires_at := 10 }

/-- Witness for C7: on a one-row store with similarity 1 at threshold 95/100,
get at time 5 returns the row's response, and the theorem produces the
matching unexpired row; the put-then-get conclusion is exercised at the same
configuration. -/
theorem c7_expired_never_served_witness :
    (∃ e ∈ [c7Entry], e.context_hash = "h" ∧ e.model_used = "m" ∧
      (5 : ℚ) < e.expires_at ∧ e.response = "Paris") ∧
    SemanticCache.get ⟨95/100, 3600, 10000⟩ id (fun _ => [1])
      (SemanticCache.put ⟨95/100, 3600, 10000⟩ (fun _ => [1]) (fun _ => "h")
        (fun _ _ => "qh") [] 0 "hello" "Paris" [] "m" (some 0)).2
      1 "hello" "h" "m" = none := by
  have hget : SemanticCache.get ⟨95/100, 3600, 10000⟩ id (fun _ => [1])
      [c7Entry] 5 "hello" "h" "m" = some "Paris" := by
    unfold SemanticCache.get
    rw [if_neg (by decide)]
    have hc : cacheCandidates [c7Entry] "h" "m" 5 = [c7Entry] := by
      unfold cacheCandidates
      rw [List.filter_cons_of_pos (by norm_num [c7Entry])]
      rfl
    have hs : calculate_similarity id [1] c7Entry.query_embedding = 1 := by
      norm_num [calculate_similarity, c7Entry, dotProduct, sumSquares]
    rw [hc]
    simp only [bestMatch, List.foldl_cons, List.foldl_nil, hs]
    rw [if_pos (by norm_num)]
    rfl
  constructor
  · exact (c7_expired_never_served ⟨95/100, 3600, 10000⟩ id (fun _ => [1])).1
      [c7Entry] 5 "hello" "h" "m" "Paris" hget
  · exact (c7_expired_never_served ⟨95/100, 3600, 10000⟩ id (fun _ => [1])).2
      (fun _ => "h") (fun _ _ => "qh") 0 1 "hello" "Paris" [] "m"

/-! ### PDF chunker (src/data_ingestion/pdf_processor.py) -/

structure ChunkerConfig where
  chunk_size : ℕ
  chunk_overlap : ℕ
  min_chunk_size : ℕ
  deriving Repr

/-- Python str.strip() on a character list: leading and trailing whitespace
removed. -/
def pyStrip (l : List Char) : List Char :=
  ((l.dropWhile Char.isWhitespace).reverse.dropWhile Char.isWhitespace).reverse

/-- Python slice text[s:e], clamping at both ends. -/
def pySlice (l : List Char) (s e : ℕ) : List Char := (l.drop s).take (e - s)

/-- Python comparison `int <= list`: unsupported operand types, raises
TypeError.  This is the progress check of pdf_processor.py line 220, which
compares the integer start with the list chunks. -/
def pyIntLeList {α : Type} (_n : ℤ) (_l : List α) : Except Unit Bool :=
  Except.error ()

/-- The scan indices range(e-1, s-1, -1): e-1 down to s. -/
def descRange (s e : ℕ) : List ℕ := (List.range' s (e - s)).reverse

/-- Paragraph-break test text[i:i+2] == "\n\n" (pdf_processor.py 240). -/
def isParaBreak (text : List Char) (i : ℕ) : Bool :=
  decide (pySlice text i (i + 2) = ['\n', '\n'])

/-- Sentence-end test: text[i] in ".!?", i+1 in range, text[i+1] whitespace
(pdf_processor.py 246-248). -/
def isSentenceEnd (text : List Char) (i : ℕ) : Bool :=
  (text.getD i ' ' == '.' || text.getD i ' ' == '!' || text.getD i ' ' == '?') &&
    decide (i + 1 < text.length) && (text.getD (i + 1) ' ').isWhitespace

/-- Whitespace test text[i].isspace() (pdf_processor.py 253). -/
def isWsAt (text : List Char) (i : ℕ) : Bool := (text.getD i ' ').isWhitespace

/-- PDFProcessor._find_break_point (pdf_processor.py 227-257): backward scan
for a paragraph break (returning i+2), then sentence punctuation followed by
whitespace (returning i+1), then any whitespace (returning i+1); fall back to
the original end. -/
def find_break_point (text : List Char) (s e : ℕ) : ℕ :=
  match (descRange s e).find? (isParaBreak text) with
  | some i => i + 2
  | none =>
    match (descRange s e).find? (isSentenceEnd text) with
    | some i => i + 1
    | none =>
      match (descRange s e).find? (isWsAt text) with
      | some i => i + 1
      | none => e

/-- One iteration of the while loop of chunk_text (pdf_processor.py 192-222)
at window start `start` with the accumulated chunks.  When the window end
falls short of the text end, the loop computes the next start and then runs
`if start <= chunks and len(chunks) > 0` — the left operand comparison of an
int with a list raises TypeError before the conjunction is evaluated, so a
second iteration is never reached (the Except.ok branch of the match is
provably unreachable). -/
def chunkLoopIter (cfg : ChunkerConfig) (text : List Char) (start : ℕ)
    (chunks : List (List Char)) : Except Unit (List (List Char)) :=
  if start < text.length then
    let end0 := start + cfg.chunk_size
    let endF :=
      if end0 < text.length then
        let searchStart := max (start + cfg.chunk_size - cfg.chunk_overlap) start
        let bp := find_break_point text searchStart end0
        if start < bp then bp else end0
      else end0
    let chunk := pyStrip (pySlice text start endF)
    let chunks' :=
      if cfg.min_chunk_size ≤ chunk.length then chunks ++ [chunk] else chunks
    if text.length ≤ endF then Except.ok chunks'
    else
      match h : pyIntLeList ((endF : ℤ) - (cfg.chunk_overlap : ℤ)) chunks' with
      | Except.error e => Except.error e
      | Except.ok _ => absurd h (by simp [pyIntLeList])
  else Except.ok chunks

/-- PDFProcessor.chunk_text (pdf_processor.py 166-225): blank text gives [],
text no longer than chunk_size gives one chunk (or none below the minimum),
longer text enters the chunking loop. -/
def chunk_text (cfg : ChunkerConfig) (raw : List Char) :
    Except Unit (List (List Char)) :=
  if pyStrip raw = [] then Except.ok []
  else
    let text := pyStrip raw
    if text.length ≤ cfg.chunk_size then
      if cfg.min_chunk_size ≤ text.length then Except.ok [text] else Except.ok []
    else chunkLoopIter cfg text 0 []

theorem descRange_mem {s e i : ℕ} (hse : s ≤ e) (h : i ∈ descRange s e) :
    s ≤ i ∧ i < e := by
  rw [descRange, List.mem_reverse, List.mem_range'_1] at h
  omega

theorem take_two_eq (xs : List Char) (c1 c2 : Char) (h : xs.take 2 = [c1, c2]) :
    ∃ rest, xs = c1 :: c2 :: rest := by
  match xs with
  | [] => simp at h
  | [x] => simp at h
  | x :: y :: rest =>
    simp only [List.take_succ_cons, List.take_zero, List.cons.injEq, and_true] at h
    exact ⟨rest, by rw [h.1, h.2]⟩

theorem find_break_point_le (text : List Char) {s e : ℕ} (hse : s ≤ e) :
    find_break_point text s e ≤ e + 1 := by
  unfold find_break_point
  cases h1 : (descRange s e).find? (isParaBreak text) with
  | some i =>
    have hm := descRange_mem hse (List.mem_of_find?_eq_some h1)
    show i + 2 ≤ e + 1
    omega
  | none =>
    cases h2 : (descRange s e).find? (isSentenceEnd text) with
    | some i =>
      have hm := descRange_mem hse (List.mem_of_find?_eq_some h2)
      show i + 1 ≤ e + 1
      omega
    | none =>
      cases h3 : (descRange s e).find? (isWsAt text) with
      | some i =>
        have hm := descRange_mem hse (List.mem_of_find?_eq_some h3)
        show i + 1 ≤ e + 1
        omega
      | none =>
        show e ≤ e + 1
        omega

theorem find_break_point_eq_succ (text : List Char) {s e : ℕ} (hse : s ≤ e)
    (h : find_break_point text s e = e + 1) : text[e]? = some '\n' := by
  unfold find_break_point at h
  cases h1 : (descRange s e).find? (isParaBreak text) with
  | some i =>
    rw [h1] at h
    have heq : i + 2 = e + 1 := h
    have hm := descRange_mem hse (List.mem_of_find?_eq_some h1)
    have hp := List.find?_some h1
    rw [isParaBreak, decide_eq_true_eq, pySlice] at hp
    have h2 : i + 2 - i = 2 := by omega
    rw [h2] at hp
    obtain ⟨rest, hrest⟩ := take_two_eq _ _ _ hp
    have hie : i + 1 = e := by omega
    have h0 : (text.drop i)[1]? = some '\n' := by rw [hrest]; simp
    rw [List.getElem?_drop] at h0
    rw [← hie]
    exact h0
  | none =>
    rw [h1] at h
    cases h2 : (descRange s e).find? (isSentenceEnd text) with
    | some i =>
      rw [h2] at h
      have heq : i + 1 = e + 1 := h
      have hm := descRange_mem hse (List.mem_of_find?_eq_some h2)
      omega
    | none =>
      rw [h2] at h
      cases h3 : (descRange s e).find? (isWsAt text) with
      | some i =>
        rw [h3] at h
        have heq : i + 1 = e + 1 := h
        have hm := descRange_mem hse (List.mem_of_find?_eq_some h3)
        omega
      | none =>
        rw [h3] at h
        have heq : e = e + 1 := h
        omega

theorem head?_dropWhile_not_ws (l : List Char) (c : Char)
    (h : (l.dropWhile Char.isWhitespace).head? = some c) :
    c.isWhitespace = false := by
  induction l with
  | nil => simp at h
  | cons x xs ih =>
    by_cases hx : Char.isWhitespace x
    · rw [List.dropWhile_cons_of_pos hx] at h
      exact ih h
    · rw [List.dropWhile_cons_of_neg (by simpa using hx)] at h
      simp only [List.head?_cons, Option.some.injEq] at h
      rw [← h]
      exact Bool.not_eq_true _ ▸ (by simpa using hx)

theorem pyStrip_getLast_not_ws (l : List Char) (c : Char)
    (h : (pyStrip l).getLast? = some c) : c.isWhitespace = false := by
  rw [pyStrip, List.getLast?_reverse] at h
  exact head?_dropWhile_not_ws _ c h

/-- The first loop iteration always raises whenever the window end falls
short of the end of a stripped text. -/
theorem chunkLoopIter_error (cfg : ChunkerConfig) (text : List Char)
    (start : ℕ) (chunks : List (List Char))
    (hstart : start < text.length)
    (hend : start + cfg.chunk_size < text.length)
    (hlast : ∀ c, text.getLast? = some c → c.isWhitespace = false) :
    chunkLoopIter cfg text start chunks = Except.error () := by
  have hse : max (start + cfg.chunk_size - cfg.chunk_overlap) start ≤
      start + cfg.chunk_size := max_le (by omega) (by omega)
  have hendF : (if start < find_break_point text
        (max (start + cfg.chunk_size - cfg.chunk_overlap) start)
        (start + cfg.chunk_size)
      then find_break_point text
        (max (start + cfg.chunk_size - cfg.chunk_overlap) start)
        (start + cfg.chunk_size)
      else start + cfg.chunk_size) < text.length := by
    generalize hbpdef : find_break_point text
      (max (start + cfg.chunk_size - cfg.chunk_overlap) start)
      (start + cfg.chunk_size) = bp
    have hbp : bp ≤ start + cfg.chunk_size + 1 :=
      hbpdef ▸ find_break_point_le text hse
    by_cases hlt : start < bp
    · rw [if_pos hlt]
      by_cases heq : bp = start + cfg.chunk_size + 1
      · by_cases hfits : start + cfg.chunk_size + 1 = text.length
        · exfalso
          have hnl := find_break_point_eq_succ text hse (hbpdef.trans heq)
          have hlastnl : text.getLast? = some '\n' := by
            rw [List.getLast?_eq_getElem?]
            have hidx : text.length - 1 = start + cfg.chunk_size := by omega
            rw [hidx]
            exact hnl
          have hws := hlast '\n' hlastnl
          simp at hws
        · omega
      · omega
    · rw [if_neg hlt]
      exact hend
  unfold chunkLoopIter
  rw [if_pos hstart]
  simp only [if_pos hend]
  rw [if_neg (not_le.mpr hendF)]
  rfl

/-- C2 (code bug): under the claim's preconditions, for every input whose
stripped length exceeds chunk_size, chunk_text raises TypeError at the
progress check `start <= chunks` (an int-vs-list comparison) instead of
terminating with a list of chunks. -/
theorem c2_chunk_text_raises (cfg : ChunkerConfig) (raw : List Char)
    (hov : cfg.chunk_overlap < cfg.chunk_size)
    (hmin : cfg.min_chunk_size ≤ cfg.chunk_size)
    (hlen : cfg.chunk_size < (pyStrip raw).length) :
    chunk_text cfg raw = Except.error () := by
  have hne : ¬ pyStrip raw = [] := by
    intro h0
    rw [h0] at hlen
    simp at hlen
  rw [chunk_text, if_neg hne]
  show (if (pyStrip raw).length ≤ cfg.chunk_size then
      if cfg.min_chunk_size ≤ (pyStrip raw).length then Except.ok [pyStrip raw]
      else Except.ok [] else chunkLoopIter cfg (pyStrip raw) 0 []) = Except.error ()
  rw [if_neg (by omega)]
  exact chunkLoopIter_error cfg (pyStrip raw) 0 [] (by omega) (by omega)
    (fun c hc => pyStrip_getLast_not_ws raw c hc)

/-- Witness for C2 at the concrete configuration (10, 3, 2) on a 25-character
input: the preconditions hold and chunk_text raises. -/
theorem c2_chunk_text_raises_witness :
    chunk_text ⟨10, 3, 2⟩ (List.replicate 25 'a') = Except.error () :=
  c2_chunk_text_raises ⟨10, 3, 2⟩ (List.replicate 25 'a') (by decide) (by decide)
    (by decide)

end Jerry
